import Mathlib

/-!
Verification of the memray tracking core (`record_writer.h`, `record_writer.cpp`,
`tracking_api.cpp`) against its natural-language specification.

The development shallowly embeds:
 * the varint / zig-zag / delta codec of `RecordWriter` (`record_writer.h`),
 * the chunk-level record serialization of `RecordWriter::writeThreadSpecificRecord`
   and `RecordWriter::writeRecord`, including a failing sink,
 * the per-thread Python stack shadow (`PythonStackTracker` in `tracking_api.cpp`)
   together with a reader that replays the emitted FRAME_PUSH / FRAME_POP records.

Machine integers are modelled as `Nat` with explicit reduction modulo `2 ^ 64`
(`size_t` / `uintptr_t` arithmetic) exactly where the C++ code can overflow.
-/

/-- Number of values of a 64-bit machine word (`size_t` on the targeted platforms). -/
def U64 : Nat := 2 ^ 64

/-- Interpretation of a 64-bit word as a signed value (two's complement),
mirroring the C++ cast from `size_t` to `ssize_t`. -/
def toSigned (w : Nat) : Int :=
  if w < 2 ^ 63 then (w : Int) else (w : Int) - (U64 : Int)

/-- Wrap-around unsigned subtraction `a - b` on 64-bit words, mirroring
unsigned arithmetic in `ssize_t delta = new_val - *prev` of
`RecordWriter::writeIntegralDelta` (record_writer.h:110). -/
def wrapSub (a b : Nat) : Nat := (a + (U64 - b % U64)) % U64

/-- Byte stream produced by `RecordWriter::writeVarint` (record_writer.h:81-95):
little-endian base-128, continuation bit `0x80`. -/
def varintBytes (v : Nat) : List Nat :=
  if v < 128 then [v]
  else (v % 128 + 128) :: varintBytes (v / 128)
termination_by v
decreasing_by omega

/-- Zig-zag encoding computed by `RecordWriter::writeSignedVarint`
(record_writer.h:97-105): `(size_t)val << 1 ^ (size_t)(val >> 63)`.
The arithmetic right shift of a negative `ssize_t` by 63 yields `-1`,
whose `size_t` cast is `2 ^ 64 - 1`. -/
def zigzagEncode (val : Int) : Nat :=
  ((val % (U64 : Int)).toNat * 2) % U64 ^^^ (if val < 0 then U64 - 1 else 0)

/-- Byte stream produced by `RecordWriter::writeSignedVarint` (record_writer.h:97-105). -/
def signedVarintBytes (val : Int) : List Nat := varintBytes (zigzagEncode val)

/-- Translation of `RecordWriter::writeIntegralDelta` (record_writer.h:107-113) for a
64-bit field: returns the bytes put on the wire and the updated `*prev` value. -/
def writeIntegralDelta (prev new_val : Nat) : List Nat × Nat :=
  (signedVarintBytes (toSigned (wrapSub new_val prev)), new_val)

/-- Modelled from the spec: the reader's varint decoder ("Varint: little-endian
base-128, continuation bit 0x80", spec section 4.1); the reader implementation is
outside the specified core. Returns the decoded value and the remaining bytes. -/
def decodeVarint : List Nat → Option (Nat × List Nat)
  | [] => none
  | b :: rest =>
    if b < 128 then some (b, rest)
    else
      match decodeVarint rest with
      | some (v, rest₁) => some (b - 128 + 128 * v, rest₁)
      | none => none

/-- Modelled from the spec: the reader's zig-zag decoder (inverse of the
protobuf-style encoding described in spec section 4.1). -/
def zigzagDecode (z : Nat) : Int :=
  if z % 2 = 0 then (z / 2 : Nat) else -((z / 2 : Nat) : Int) - 1

/-- Modelled from the spec: the reader's signed-varint decoder. -/
def decodeSignedVarint (bs : List Nat) : Option (Int × List Nat) :=
  match decodeVarint bs with
  | some (z, rest) => some (zigzagDecode z, rest)
  | none => none

/-- Successive values written through `writeIntegralDelta` for one delta-encoded
field, starting from stored state `prev`: the list of byte strings put on the wire. -/
def writeDeltaSeq (prev : Nat) : List Nat → List (List Nat)
  | [] => []
  | v :: vs => (writeIntegralDelta prev v).1 :: writeDeltaSeq (writeIntegralDelta prev v).2 vs

/-- Signed deltas corresponding to `writeDeltaSeq`. -/
def deltaInts (prev : Nat) : List Nat → List Int
  | [] => []
  | v :: vs => toSigned (wrapSub v prev) :: deltaInts v vs

/-- Record type constants of the wire format. The numeric values live in
`records.h`, which is not part of the specified sources; the claims only
depend on the constants being distinct, so they are kept symbolic. -/
inductive RecordType where
  | MEMORY_RECORD
  | CONTEXT_SWITCH
  | FRAME_INDEX
  | NATIVE_TRACE_INDEX
  | FRAME_POP
  | FRAME_PUSH
  | ALLOCATION
  | ALLOCATION_WITH_NATIVE
  | THREAD_RECORD
  | MEMORY_MAP_START
  | SEGMENT_HEADER
  | SEGMENT
  | TRAILER
deriving DecidableEq, Repr

/-- One unit handed to the sink by a single `Sink::writeAll` call:
a one-byte token (`RecordTypeAndFlags`: high nibble record type, low nibble
flags), a single varint byte, a NUL-terminated string, or a fixed-width
host-endian scalar of `width` bytes. -/
inductive Chunk where
  | token (rt : RecordType) (flags : Nat)
  | byte (b : Nat)
  | cstr (s : String)
  | fixed (width : Nat) (val : Nat)
deriving DecidableEq, Repr

/-- Modelled from the spec: the allocator-kind classification
(`hooks::allocatorKind` lives in `hooks.h`, outside the provided sources).
The spec only distinguishes "simple deallocator" from every other kind
(spec sections 4.1 and 8, property 6). -/
inductive AllocatorKind where
  | SIMPLE_DEALLOCATOR
  | OTHER
deriving DecidableEq, Repr

/-- Modelled from the spec: an allocator enum value (`hooks::Allocator`,
`hooks.h`): its one-byte numeric code, used as the token flag bits, and its
kind as computed by `hooks::allocatorKind`. -/
structure Allocator where
  code : Nat
  kind : AllocatorKind
deriving DecidableEq, Repr

/-- Modelled from the spec: `hooks::allocatorKind` of `hooks.h`. -/
def allocatorKind (a : Allocator) : AllocatorKind := a.kind

/-- Mirror of `DeltaEncodedFields` (`records.h`, field list from spec section 3,
"DeltaState"): last written value of each delta-encoded stream. -/
structure DeltaEncodedFields where
  thread_id : Nat := 0
  python_frame_id : Nat := 0
  python_line_number : Nat := 0
  instruction_pointer : Nat := 0
  native_frame_id : Nat := 0
  data_pointer : Nat := 0
deriving DecidableEq, Repr

/-- State of a `RecordWriter` together with its sink. The sink accepts
`sinkCap` more `writeAll` calls and then fails permanently (an ENOSPC-style
failure model); `out` is the byte stream accepted so far. -/
structure WriterState where
  n_allocations : Nat := 0
  n_frames : Nat := 0
  d_last : DeltaEncodedFields := {}
  sinkCap : Nat
  out : List Chunk := []
deriving DecidableEq, Repr

/-- Short-circuit sequencing of two writes, mirroring the C++ `&&` chains in
`RecordWriter`: the second write only happens if the first succeeded. -/
def andThenW (r : Bool × WriterState) (f : WriterState → Bool × WriterState) :
    Bool × WriterState :=
  match r with
  | (true, st) => f st
  | (false, st) => (false, st)

/-- One `Sink::writeAll` call. -/
def writeChunk (st : WriterState) (c : Chunk) : Bool × WriterState :=
  if st.sinkCap = 0 then (false, st)
  else (true, { st with sinkCap := st.sinkCap - 1, out := st.out ++ [c] })

/-- Sequential writes of a chunk list, stopping at the first failure. -/
def writeChunks (st : WriterState) : List Chunk → Bool × WriterState
  | [] => (true, st)
  | c :: cs => andThenW (writeChunk st c) (fun st₁ => writeChunks st₁ cs)

/-- Stateful version of `RecordWriter::writeVarint` (record_writer.h:81-95):
writes the varint bytes one `writeSimpleType` call at a time. -/
def writeVarintW (st : WriterState) (v : Nat) : Bool × WriterState :=
  writeChunks st ((varintBytes v).map Chunk.byte)

/-- Stateful version of `RecordWriter::writeSignedVarint` (record_writer.h:97-105). -/
def writeSignedVarintW (st : WriterState) (val : Int) : Bool × WriterState :=
  writeChunks st ((signedVarintBytes val).map Chunk.byte)

/-- Flag sequence of the `while (count)` loop in
`RecordWriter::writeThreadSpecificRecord(tid, FramePop)` (record_writer.h:185-196):
each iteration pops `to_pop = count > 16 ? 16 : count` frames and emits one
`FRAME_POP` token with flags `to_pop - 1`. -/
def framePopFlags (count : Nat) : List Nat :=
  if count = 0 then []
  else if count > 16 then 15 :: framePopFlags (count - 16)
  else [count - 1]
termination_by count
decreasing_by omega

/-- The `FRAME_POP` tokens put on the wire for a `FramePop{count}` record. -/
def framePopTokens (count : Nat) : List Chunk :=
  (framePopFlags count).map (fun f => Chunk.token RecordType.FRAME_POP f)

/-- Mirror of `RecordWriter::maybeWriteContextSwitchRecordUnsafe`
(record_writer.h:167-177): updates `d_last.thread_id` and emits a
`CONTEXT_SWITCH` token plus the fixed-width tid when the thread changed. -/
def maybeWriteContextSwitchRecord (st : WriterState) (tid : Nat) : Bool × WriterState :=
  if st.d_last.thread_id = tid then (true, st)
  else
    let st₁ := { st with d_last := { st.d_last with thread_id := tid } }
    andThenW (writeChunk st₁ (Chunk.token RecordType.CONTEXT_SWITCH 0))
      (fun st₂ => writeChunk st₂ (Chunk.fixed 8 tid))

/-- Mirror of `RecordWriter::writeThreadSpecificRecord(tid, FramePop)`
(record_writer.h:179-199). -/
def writeFramePopRecord (st : WriterState) (tid count : Nat) : Bool × WriterState :=
  andThenW (maybeWriteContextSwitchRecord st tid)
    (fun st₁ => writeChunks st₁ (framePopTokens count))

/-- Mirror of `RecordWriter::writeThreadSpecificRecord(tid, AllocationRecord)`
(record_writer.h:211-222): `ALLOCATION` token with the allocator code as flags,
delta-encoded `data_pointer`, then `varint(size)` unless the allocator kind is
`SIMPLE_DEALLOCATOR` (short-circuit `||`). -/
def writeAllocationRecord (st : WriterState) (tid address size : Nat)
    (allocator : Allocator) : Bool × WriterState :=
  andThenW (maybeWriteContextSwitchRecord st tid) (fun st₁ =>
    let st₂ := { st₁ with n_allocations := st₁.n_allocations + 1 }
    andThenW (writeChunk st₂ (Chunk.token RecordType.ALLOCATION allocator.code)) (fun st₃ =>
      let prev := st₃.d_last.data_pointer
      let st₄ := { st₃ with d_last := { st₃.d_last with data_pointer := address } }
      andThenW (writeChunks st₄ ((writeIntegralDelta prev address).1.map Chunk.byte)) (fun st₅ =>
        if allocatorKind allocator = AllocatorKind.SIMPLE_DEALLOCATOR then (true, st₅)
        else writeVarintW st₅ size)))

/-- Mirror of `RecordWriter::writeThreadSpecificRecord(tid, NativeAllocationRecord)`
(record_writer.h:224-239): `ALLOCATION_WITH_NATIVE` token, delta-encoded
`data_pointer`, `varint(size)` unconditionally, delta-encoded `native_frame_id`. -/
def writeNativeAllocationRecord (st : WriterState) (tid address size native_frame_id : Nat)
    (allocator : Allocator) : Bool × WriterState :=
  andThenW (maybeWriteContextSwitchRecord st tid) (fun st₁ =>
    let st₂ := { st₁ with n_allocations := st₁.n_allocations + 1 }
    andThenW (writeChunk st₂ (Chunk.token RecordType.ALLOCATION_WITH_NATIVE allocator.code))
      (fun st₃ =>
        let prev := st₃.d_last.data_pointer
        let st₄ := { st₃ with d_last := { st₃.d_last with data_pointer := address } }
        andThenW (writeChunks st₄ ((writeIntegralDelta prev address).1.map Chunk.byte)) (fun st₅ =>
          andThenW (writeVarintW st₅ size) (fun st₆ =>
            let prev₂ := st₆.d_last.native_frame_id
            let st₇ := { st₆ with d_last := { st₆.d_last with native_frame_id := native_frame_id } }
            writeChunks st₇ ((writeIntegralDelta prev₂ native_frame_id).1.map Chunk.byte)))))

/-- Mirror of `RawFrame` (spec section 3; used by value throughout
`tracking_api.cpp`). Line numbers are C `int`s, kept as `Int`. -/
structure RawFrame where
  function_name : String
  filename : String
  lineno : Int
  is_entry_frame : Bool
deriving DecidableEq, Repr

/-- Bit pattern of a C `int` value as an unsigned 32-bit word. -/
def word32 (v : Int) : Nat := (v % (2 ^ 32 : Int)).toNat

/-- Interpretation of a 32-bit word as a signed C `int`. -/
def toSigned32 (w : Nat) : Int :=
  if w < 2 ^ 31 then (w : Int) else (w : Int) - 2 ^ 32

/-- Wrap-around 32-bit delta for the C `int` field `python_line_number`:
`ssize_t delta = new_val - *prev` where both operands are `int`. -/
def lineDelta (prev : Nat) (new_val : Int) : Int :=
  toSigned32 ((word32 new_val + (2 ^ 32 - prev % 2 ^ 32)) % 2 ^ 32)

/-- Mirror of `RecordWriter::writeRecord(const pyrawframe_map_val_t&)`
(record_writer.h:122-129): bump `stats.n_frames` first, then emit the
`FRAME_INDEX` token (flag = `!is_entry_frame`), the delta-encoded frame id,
both NUL-terminated strings, and the delta-encoded line number. -/
def writeFrameIndex (st : WriterState) (frame_id : Nat) (frame : RawFrame) :
    Bool × WriterState :=
  let st₁ := { st with n_frames := st.n_frames + 1 }
  andThenW
    (writeChunk st₁ (Chunk.token RecordType.FRAME_INDEX (if frame.is_entry_frame then 0 else 1)))
    (fun st₂ =>
      let prev := st₂.d_last.python_frame_id
      let st₃ := { st₂ with d_last := { st₂.d_last with python_frame_id := frame_id } }
      andThenW (writeChunks st₃ ((writeIntegralDelta prev frame_id).1.map Chunk.byte)) (fun st₄ =>
        andThenW (writeChunk st₄ (Chunk.cstr frame.function_name)) (fun st₅ =>
          andThenW (writeChunk st₅ (Chunk.cstr frame.filename)) (fun st₆ =>
            let prev₂ := st₆.d_last.python_line_number
            let st₇ :=
              { st₆ with
                d_last := { st₆.d_last with python_line_number := word32 frame.lineno } }
            writeSignedVarintW st₇ (lineDelta prev₂ frame.lineno)))))

/-- Mirror of `PythonStackTracker::LazilyEmittedFrame` (tracking_api.cpp:91-96).
The `frame` field stands for the `PyFrameObject*` identity used for pop matching. -/
structure LazyFrame where
  frame : Nat
  raw_frame_record : RawFrame
  emitted : Bool
deriving DecidableEq, Repr

/-- Thread-specific records relevant to stack reconstruction, at the token level:
a `FRAME_POP` token with its 4-bit flag field, or a `FRAME_PUSH`. A `FRAME_PUSH`
carries the pushed frame by value: the writer sends `FramePush{frame_id}` where
`registerFrame` interns equal `RawFrame` values to equal ids and the reader maps
ids back through `FRAME_INDEX` records, so the id indirection is value-preserving. -/
inductive OutRecord where
  | pop (flags : Nat)
  | push (frame : RawFrame)
deriving DecidableEq, Repr

/-- The `FRAME_POP` tokens that `Tracker::popFrames(count)` puts on the wire
(tracking_api.cpp:766-776 via record_writer.h:179-199). -/
def framePopRecs (count : Nat) : List OutRecord :=
  (framePopFlags count).map OutRecord.pop

/-- State of one thread's `PythonStackTracker` (tracking_api.cpp:84-129) plus the
stream of stack records it has handed to the writer. The stack is held with the
MOST RECENT frame first (head = `d_stack->back()`). -/
structure TrackerState where
  stack : List LazyFrame
  num_pending_pops : Nat
  out : List OutRecord
deriving DecidableEq, Repr

/-- Mirror of `PythonStackTracker::emitPendingPops` (tracking_api.cpp:155-160):
write `FramePop{d_num_pending_pops}` and zero the counter. -/
def emitPendingPops (s : TrackerState) : TrackerState :=
  { s with out := s.out ++ framePopRecs s.num_pending_pops, num_pending_pops := 0 }

/-- Predicate of the `find_if` in `emitPendingPushes`. -/
def notEmitted (f : LazyFrame) : Bool := !f.emitted

/-- Marking a frame as streamed. -/
def markEmitted (f : LazyFrame) : LazyFrame := { f with emitted := true }

/-- Mirror of `PythonStackTracker::emitPendingPushes` (tracking_api.cpp:162-178):
find the most recently pushed frame that was already emitted; every frame above
it (they are exactly the frames for which `notEmitted` holds up from the top) is
pushed, oldest first, and marked emitted. -/
def emitPendingPushes (s : TrackerState) : TrackerState :=
  let to_emit := s.stack.takeWhile notEmitted
  { s with
    stack := to_emit.map markEmitted ++ s.stack.dropWhile notEmitted,
    out := s.out ++ (to_emit.reverse.map (fun f => OutRecord.push f.raw_frame_record)) }

/-- Mirror of `PythonStackTracker::setMostRecentFrameLineNumber`
(tracking_api.cpp:189-203). -/
def setMostRecentFrameLineNumber (s : TrackerState) (lineno : Int) : TrackerState :=
  match s.stack with
  | [] => s
  | top :: rest =>
    if top.raw_frame_record.lineno = lineno then s
    else
      let top₁ := { top with raw_frame_record := { top.raw_frame_record with lineno := lineno } }
      if top₁.emitted then
        { s with
          stack := { top₁ with emitted := false } :: rest,
          num_pending_pops := s.num_pending_pops + 1 }
      else
        { s with stack := top₁ :: rest }

/-- Mirror of `PythonStackTracker::pushLazilyEmittedFrame` (tracking_api.cpp:265-293),
with the thread-local-creation machinery elided (a null `d_stack` behaves as an
empty stack everywhere in this model). -/
def pushLazilyEmittedFrame (s : TrackerState) (f : LazyFrame) : TrackerState :=
  { s with stack := f :: s.stack }

/-- Mirror of `PythonStackTracker::pushPythonFrame` (tracking_api.cpp:242-263).
The interpreter-reflection results are inputs: `function` and `filename` are
`none` when `PyUnicode_AsUTF8` fails, `parent_lineno` is what
`getCurrentPythonLineNumber` reads from the interpreter, and `is_entry_frame`
is `!s_native_tracking_enabled || compat::isEntryFrame(frame)`. -/
def pushPythonFrame (s : TrackerState) (frame : Nat) (function filename : Option String)
    (parent_lineno : Int) (is_entry_frame : Bool) : Int × TrackerState :=
  match function with
  | none => (-1, s)
  | some fn =>
    match filename with
    | none => (-1, s)
    | some file =>
      let s₁ := setMostRecentFrameLineNumber s parent_lineno
      (0, pushLazilyEmittedFrame s₁ ⟨frame, ⟨fn, file, 0, is_entry_frame⟩, false⟩)

/-- Mirror of `PythonStackTracker::popPythonFrame` (tracking_api.cpp:295-317). -/
def popPythonFrame (s : TrackerState) (frame : Nat) : TrackerState :=
  match s.stack with
  | [] => s
  | top :: rest =>
    if frame ≠ top.frame then s
    else
      let s₁ :=
        { s with
          num_pending_pops := s.num_pending_pops + (if top.emitted then 1 else 0),
          stack := rest }
      if s₁.stack.isEmpty then emitPendingPops s₁ else s₁

/-- Mirror of `PythonStackTracker::reloadStackIfTrackerChanged`
(tracking_api.cpp:205-240) after a generation change: discard the local stack
and pending pops and re-push the centrally captured frames (most recent call
last). `pythonFrameToStack` (tracking_api.cpp:324-350) captures the frames most
recent first with `emitted = false`. -/
def reloadStack (s : TrackerState) (captured : List (Nat × RawFrame)) : TrackerState :=
  { s with
    stack := captured.map (fun p => ⟨p.1, p.2, false⟩),
    num_pending_pops := 0 }

/-- Stack-relevant steps of `Tracker::trackAllocationImpl` (tracking_api.cpp:624-662):
refresh the top frame's line number with what the interpreter reports, flush
pending pops, then flush pending pushes; the allocation record itself follows. -/
def trackAllocation (s : TrackerState) (lineno : Int) : TrackerState :=
  emitPendingPushes (emitPendingPops (setMostRecentFrameLineNumber s lineno))

/-- External events driving one thread's shadow stack while tracking is active.
Interpreter-provided data (names, line numbers, entry-frame flags) ride on the
events. -/
inductive Event where
  | push (frame : Nat) (function filename : String) (parent_lineno : Int) (is_entry : Bool)
  | pop (frame : Nat)
  | lineChange (lineno : Int)
  | alloc (lineno : Int)

/-- One event step of the shadow machine. -/
def step (s : TrackerState) : Event → TrackerState
  | Event.push fr fn file pl entry => (pushPythonFrame s fr (some fn) (some file) pl entry).2
  | Event.pop fr => popPythonFrame s fr
  | Event.lineChange n => setMostRecentFrameLineNumber s n
  | Event.alloc n => trackAllocation s n

/-- Freshly created thread state: empty stack, no pending pops, nothing written. -/
def initialState : TrackerState := ⟨[], 0, []⟩

/-- Run of the shadow machine from thread creation. -/
def runEvents (es : List Event) : TrackerState := es.foldl step initialState

/-- Modelled from the spec: one reader step ("A `FRAME_POP` with flags=k removes
k+1 frames", "`FramePush{frame_id}`" pushes; spec sections 4.1 and 8). The
reader's stack is held most recent first. -/
def replayRec (stack : List RawFrame) : OutRecord → List RawFrame
  | OutRecord.pop flags => stack.drop (flags + 1)
  | OutRecord.push f => f :: stack

/-- Modelled from the spec: the reader's reconstructed stack after replaying an
emitted record stream. -/
def replay (out : List OutRecord) : List RawFrame := out.foldl replayRec []

/-- Frames of the shadow stack already streamed to the writer: everything from
the most recent emitted frame down. -/
def emittedPart (l : List LazyFrame) : List LazyFrame := l.dropWhile notEmitted

/-- Invariant of spec section 3: the `emitted` frames form a contiguous segment
at the bottom of the stack (equivalently, in most-recent-first order, everything
from the first emitted frame on is emitted). -/
def Contig (l : List LazyFrame) : Bool := (emittedPart l).all (fun f => f.emitted)

/-- Full reconstruction invariant tying a shadow state to the reader: the
reader's stack is the emitted part of the shadow stack, below exactly
`num_pending_pops` frames that are waiting to be popped. -/
def ShadowInv (s : TrackerState) : Prop :=
  Contig s.stack = true ∧
  ∃ junk : List RawFrame,
    junk.length = s.num_pending_pops ∧
    replay s.out = junk ++ (emittedPart s.stack).map (fun f => f.raw_frame_record)

-- Basic codec lemmas

theorem decodeVarint_varintBytes (v : Nat) (rest : List Nat) :
    decodeVarint (varintBytes v ++ rest) = some (v, rest) := by
  induction v using Nat.strong_induction_on with
  | _ v ih =>
    rw [varintBytes]
    by_cases h : v < 128
    · simp [h, decodeVarint]
    · have hrec := ih (v / 128) (by omega)
      simp only [h, if_false, List.cons_append, decodeVarint]
      have h2 : ¬ (v % 128 + 128 < 128) := by omega
      simp only [h2, if_false, hrec]
      have h3 : v % 128 + 128 - 128 + 128 * (v / 128) = v := by omega
      rw [h3]

theorem xor_two_pow_sub_one (n : Nat) :
    ∀ x, x < 2 ^ n → x ^^^ (2 ^ n - 1) = 2 ^ n - 1 - x := by
  induction n with
  | zero =>
    intro x hx
    have : x = 0 := by omega
    subst this
    rfl
  | succ n ih =>
    intro x hx
    have hpow : 2 ^ (n + 1) = 2 * 2 ^ n := by rw [pow_succ]; ring
    have hposn : 0 < 2 ^ n := Nat.pos_pow_of_pos n (by omega)
    have hdiv : (x ^^^ (2 ^ (n + 1) - 1)) / 2 = 2 ^ n - 1 - x / 2 := by
      rw [Nat.xor_div_two]
      have h1 : (2 ^ (n + 1) - 1) / 2 = 2 ^ n - 1 := by omega
      rw [h1]
      exact ih (x / 2) (by omega)
    have hb : (2 ^ (n + 1) - 1) % 2 = 1 := by omega
    have hiff := Nat.xor_mod_two_eq_one (a := x) (b := 2 ^ (n + 1) - 1)
    rw [hb] at hiff
    have hdm := Nat.div_add_mod (x ^^^ (2 ^ (n + 1) - 1)) 2
    have hdmx := Nat.div_add_mod x 2
    have hxm : x % 2 < 2 := Nat.mod_lt _ (by omega)
    have hym : (x ^^^ (2 ^ (n + 1) - 1)) % 2 < 2 := Nat.mod_lt _ (by omega)
    omega

theorem wrapSub_lt (a b : Nat) : wrapSub a b < U64 := by
  have : 0 < U64 := by simp [U64]
  exact Nat.mod_lt _ this

theorem toSigned_bounds (w : Nat) (h : w < U64) :
    -(2 ^ 63 : Int) ≤ toSigned w ∧ toSigned w < 2 ^ 63 := by
  simp only [toSigned, U64] at *
  split <;> constructor <;> omega

theorem zigzagDecode_encode (val : Int) (h1 : -(2 ^ 63) ≤ val) (h2 : val < 2 ^ 63) :
    zigzagDecode (zigzagEncode val) = val := by
  by_cases hneg : val < 0
  · -- negative branch: the cast to size_t wraps, the shift fills with ones
    have hU : ((U64 : Nat) : Int) = 2 ^ 64 := by simp [U64]
    have hmod : val % ((U64 : Nat) : Int) = val + 2 ^ 64 := by
      rw [hU]
      omega
    have ht : (val % ((U64 : Nat) : Int)).toNat = (val + 2 ^ 64).toNat := by rw [hmod]
    set t : Nat := (val + 2 ^ 64).toNat with htdef
    have htval : (t : Int) = val + 2 ^ 64 := by
      rw [htdef]
      omega
    have htlo : 2 ^ 63 ≤ t := by omega
    have hthi : t < 2 ^ 64 := by omega
    have hm : t * 2 % U64 = t * 2 - 2 ^ 64 := by
      simp only [U64]
      omega
    have hlt : t * 2 - 2 ^ 64 < 2 ^ 64 := by omega
    have hx := xor_two_pow_sub_one 64 (t * 2 - 2 ^ 64) hlt
    simp only [zigzagEncode, ht, hneg, if_true, hm]
    have hones : U64 - 1 = 2 ^ 64 - 1 := by simp [U64]
    rw [hones, hx]
    have hz : 2 ^ 64 - 1 - (t * 2 - 2 ^ 64) = 2 * (2 ^ 64 - t) - 1 := by omega
    rw [hz]
    have hodd : (2 * (2 ^ 64 - t) - 1) % 2 = 1 := by omega
    have hhalf : (2 * (2 ^ 64 - t) - 1) / 2 = 2 ^ 64 - t - 1 := by omega
    simp only [zigzagDecode, hodd, hhalf]
    norm_num
    omega
  · push_neg at hneg
    have hU : ((U64 : Nat) : Int) = 2 ^ 64 := by simp [U64]
    have hmod : val % ((U64 : Nat) : Int) = val := by
      rw [hU]
      omega
    have ht : (val % ((U64 : Nat) : Int)).toNat = val.toNat := by rw [hmod]
    have htv : ((val.toNat : Nat) : Int) = val := Int.toNat_of_nonneg hneg
    have hlt : val.toNat * 2 < U64 := by
      simp only [U64]
      omega
    have hmm : val.toNat * 2 % U64 = val.toNat * 2 := Nat.mod_eq_of_lt hlt
    have hnn : ¬ (val < 0) := by omega
    simp only [zigzagEncode, ht, hnn, if_false, hmm, Nat.xor_zero]
    have heven : val.toNat * 2 % 2 = 0 := by omega
    have hhalf : val.toNat * 2 / 2 = val.toNat := by omega
    simp only [zigzagDecode, heven, if_true, hhalf]
    exact htv

theorem decodeSignedVarint_bytes (d : Int) (h1 : -(2 ^ 63) ≤ d) (h2 : d < 2 ^ 63) :
    decodeSignedVarint (signedVarintBytes d) = some (d, []) := by
  have h := decodeVarint_varintBytes (zigzagEncode d) []
  rw [List.append_nil] at h
  simp only [signedVarintBytes, decodeSignedVarint, h, zigzagDecode_encode d h1 h2]

theorem delta_step (prev v : Nat) (hp : prev < U64) (hv : v < U64) :
    ((prev : Int) + toSigned (wrapSub v prev)) % ((U64 : Nat) : Int) = (v : Int) := by
  have hU : ((U64 : Nat) : Int) = 2 ^ 64 := by simp [U64]
  have hw : wrapSub v prev = (v + (U64 - prev)) % U64 := by
    simp only [wrapSub, Nat.mod_eq_of_lt hp]
  simp only [toSigned, hw, hU, U64] at *
  split <;> push_cast <;> omega

theorem deltaInts_decode (vals : List Nat) :
    ∀ prev, prev < U64 → (∀ v ∈ vals, v < U64) →
      (writeDeltaSeq prev vals).map decodeSignedVarint
        = (deltaInts prev vals).map (fun d => some (d, ([] : List Nat))) := by
  induction vals with
  | nil => intro prev _ _; simp [writeDeltaSeq, deltaInts]
  | cons v vs ih =>
    intro prev hp hv
    have hvU : v < U64 := hv v (by simp)
    have hd := toSigned_bounds (wrapSub v prev) (wrapSub_lt v prev)
    simp only [writeDeltaSeq, deltaInts, List.map_cons, writeIntegralDelta]
    rw [decodeSignedVarint_bytes _ hd.1 hd.2, ih v hvU (fun w hw => hv w (by simp [hw]))]

theorem deltaInts_prefix_sum (vals : List Nat) :
    ∀ prev, prev < U64 → (∀ v ∈ vals, v < U64) →
      ∀ n, n < vals.length →
        ((prev : Int) + (((deltaInts prev vals).take (n + 1)).sum)) % ((U64 : Nat) : Int)
          = ((vals.getD n 0 : Nat) : Int) := by
  induction vals with
  | nil => intro prev _ _ n hn; simp at hn
  | cons v vs ih =>
    intro prev hp hv n hn
    have hvU : v < U64 := hv v (by simp)
    cases n with
    | zero =>
      simp only [deltaInts, List.take_succ_cons, List.take_zero, List.sum_cons, List.sum_nil,
        List.getD_cons_zero, add_zero]
      exact delta_step prev v hp hvU
    | succ m =>
      have hm : m < vs.length := by simpa using hn
      have hstep := delta_step prev v hp hvU
      have hih := ih v hvU (fun w hw => hv w (by simp [hw])) m hm
      simp only [deltaInts, List.take_succ_cons, List.sum_cons, List.getD_cons_succ]
      have hU : ((U64 : Nat) : Int) = 2 ^ 64 := by simp [U64]
      rw [hU] at hstep hih ⊢
      omega

-- FramePop token lemmas

theorem framePopFlags_ne_nil (count : Nat) (h : 1 ≤ count) : framePopFlags count ≠ [] := by
  rw [framePopFlags]
  have h0 : ¬ (count = 0) := by omega
  simp only [h0, if_false]
  split <;> simp

theorem getLast?_cons_of_ne_nil {α : Type} (a : α) (l : List α) (h : l ≠ []) :
    (a :: l).getLast? = l.getLast? := by
  cases l with
  | nil => exact absurd rfl h
  | cons b t => simp [List.getLast?_cons_cons]

theorem framePopFlags_spec (count : Nat) (h : 1 ≤ count) :
    (framePopFlags count).length = (count + 15) / 16
  ∧ (∀ f ∈ framePopFlags count, f < 16)
  ∧ ((framePopFlags count).map (fun f => f + 1)).sum = count
  ∧ (framePopFlags count).getLast? = some ((count - 1) % 16) := by
  induction count using Nat.strong_induction_on with
  | _ count ih =>
    rw [framePopFlags]
    have h0 : ¬ (count = 0) := by omega
    by_cases h16 : count > 16
    · have ihr := ih (count - 16) (by omega) (by omega)
      simp only [h0, if_false, h16, if_true]
      refine ⟨?_, ?_, ?_, ?_⟩
      · simp only [List.length_cons, ihr.1]
        omega
      · intro f hf
        rcases List.mem_cons.mp hf with hf | hf
        · omega
        · exact ihr.2.1 f hf
      · simp only [List.map_cons, List.sum_cons, ihr.2.2.1]
        omega
      · rw [getLast?_cons_of_ne_nil _ _ (framePopFlags_ne_nil _ (by omega)), ihr.2.2.2]
        have : (count - 16 - 1) % 16 = (count - 1) % 16 := by omega
        rw [this]
    · simp only [h0, if_false, h16, if_false]
      refine ⟨by simp; omega, ?_, by simp; omega, ?_⟩
      · intro f hf
        simp at hf
        omega
      · simp only [List.getLast?_singleton]
        have : (count - 1) % 16 = count - 1 := Nat.mod_eq_of_lt (by omega)
        rw [this]

/-- C2: for every count >= 1, writing `FramePop{count}` emits exactly
ceil(count/16) `FRAME_POP` tokens; each token's flag field is below 16 and the
token pops flag+1 frames (between 1 and 16), the total popped across the
consecutive tokens sums to count, and the last token carries the remainder
`(count - 1) % 16`. -/
theorem claim_C2 (count : Nat) (h : 1 ≤ count) :
    framePopTokens count
        = (framePopFlags count).map (fun f => Chunk.token RecordType.FRAME_POP f)
  ∧ (framePopFlags count).length = (count + 15) / 16
  ∧ (∀ f ∈ framePopFlags count, f < 16)
  ∧ ((framePopFlags count).map (fun f => f + 1)).sum = count
  ∧ (framePopFlags count).getLast? = some ((count - 1) % 16) := by
  have hs := framePopFlags_spec count h
  exact ⟨rfl, hs.1, hs.2.1, hs.2.2.1, hs.2.2.2⟩

/-- Witness for C2 at count = 20: two tokens, popping 16 + 4 frames. -/
theorem claim_C2_witness :
    1 ≤ 20
  ∧ ((framePopFlags 20).map (fun f => f + 1)).sum = 20
  ∧ (framePopFlags 20).length = (20 + 15) / 16
  ∧ (framePopFlags 20).getLast? = some ((20 - 1) % 16) := by
  have hc := claim_C2 20 (by omega)
  exact ⟨by omega, hc.2.2.2.1, hc.2.1, hc.2.2.2.2⟩

/-- C3 counterexample: `FramePop{count=33}` serializes with flag fields
15, 15, 0 — not 15, 15, 1 as claimed (the last token pops a single frame,
and the flag field encodes `pop_count - 1`). -/
theorem claim_C3_counterexample :
    framePopFlags 33 = [15, 15, 0] ∧ ¬ framePopFlags 33 = [15, 15, 1] := by
  have h : framePopFlags 33 = [15, 15, 0] := by
    rw [framePopFlags]
    norm_num
    rw [framePopFlags]
    norm_num
    rw [framePopFlags]
    norm_num
  rw [h]
  simp

/-- C3 amended: writing `FramePop{count=33}` serializes as exactly 3 `FRAME_POP`
tokens whose flag fields are, in order, 15, 15, 0. -/
theorem claim_C3 :
    framePopTokens 33 =
      [Chunk.token RecordType.FRAME_POP 15, Chunk.token RecordType.FRAME_POP 15,
       Chunk.token RecordType.FRAME_POP 0] := by
  have h : framePopFlags 33 = [15, 15, 0] := by
    rw [framePopFlags]
    norm_num
    rw [framePopFlags]
    norm_num
    rw [framePopFlags]
    norm_num
  simp [framePopTokens, h]

-- Writer sequencing lemmas

theorem andThenW_fst_true (r : Bool × WriterState) (f : WriterState → Bool × WriterState)
    (h : r.1 = true) : andThenW r f = f r.2 := by
  rcases r with ⟨b, st⟩
  cases b
  · simp at h
  · simp [andThenW]

theorem andThenW_fst_false (r : Bool × WriterState) (f : WriterState → Bool × WriterState)
    (h : r.1 = false) : andThenW r f = r := by
  rcases r with ⟨b, st⟩
  cases b
  · simp [andThenW]
  · simp at h

theorem writeChunk_cases (st : WriterState) (c : Chunk) :
    (st.sinkCap = 0 ∧ writeChunk st c = (false, st)) ∨
    (st.sinkCap ≠ 0 ∧
      writeChunk st c = (true, { st with sinkCap := st.sinkCap - 1, out := st.out ++ [c] })) := by
  by_cases h : st.sinkCap = 0
  · left
    simp [writeChunk, h]
  · right
    simp [writeChunk, h]

theorem writeChunks_out (l : List Chunk) :
    ∀ st : WriterState, (writeChunks st l).1 = true →
      (writeChunks st l).2
        = { st with sinkCap := st.sinkCap - l.length, out := st.out ++ l } := by
  induction l with
  | nil => intro st _; simp [writeChunks]
  | cons c cs ih =>
    intro st h
    rcases writeChunk_cases st c with ⟨h0, heq⟩ | ⟨h0, heq⟩
    · rw [writeChunks, heq, andThenW_fst_false _ _ rfl] at h
      simp at h
    · rw [writeChunks, heq, andThenW_fst_true _ _ rfl] at h ⊢
      rw [ih _ h]
      simp only [WriterState.mk.injEq, List.length_cons, List.append_assoc,
        List.singleton_append, true_and]
      exact ⟨by omega, trivial⟩

theorem writeChunk_n_frames (st : WriterState) (c : Chunk) :
    (writeChunk st c).2.n_frames = st.n_frames := by
  rcases writeChunk_cases st c with ⟨_, h⟩ | ⟨_, h⟩ <;> rw [h]

theorem writeChunks_n_frames (l : List Chunk) :
    ∀ st : WriterState, (writeChunks st l).2.n_frames = st.n_frames := by
  induction l with
  | nil => intro st; rfl
  | cons c cs ih =>
    intro st
    rw [writeChunks]
    rcases writeChunk_cases st c with ⟨_, h⟩ | ⟨_, h⟩
    · rw [h, andThenW_fst_false _ _ rfl]
    · rw [h, andThenW_fst_true _ _ rfl, ih]

theorem andThenW_n_frames (r : Bool × WriterState) (f : WriterState → Bool × WriterState)
    (n : Nat) (h1 : r.2.n_frames = n) (h2 : ∀ st, (f st).2.n_frames = st.n_frames) :
    (andThenW r f).2.n_frames = n := by
  rcases r with ⟨b, st⟩
  cases b
  · exact h1
  · rw [andThenW_fst_true _ _ rfl, h2]
    exact h1

/-- C10: every `FrameIndex` record write bumps `stats.n_frames` exactly once,
and the bump happens before any bytes are attempted: when the sink has already
failed, the write returns false, nothing lands on the wire, and `n_frames` is
still incremented, so it exceeds the number of FRAME_INDEX records actually
written. -/
theorem claim_C10 (st : WriterState) (frame_id : Nat) (frame : RawFrame) :
    (writeFrameIndex st frame_id frame).2.n_frames = st.n_frames + 1
  ∧ (st.sinkCap = 0 →
      (writeFrameIndex st frame_id frame).1 = false ∧
      (writeFrameIndex st frame_id frame).2.out = st.out) := by
  constructor
  · simp only [writeFrameIndex]
    apply andThenW_n_frames
    · exact writeChunk_n_frames _ _
    · intro s
      apply andThenW_n_frames
      · exact writeChunks_n_frames _ _
      · intro s₂
        apply andThenW_n_frames
        · exact writeChunk_n_frames _ _
        · intro s₃
          apply andThenW_n_frames
          · exact writeChunk_n_frames _ _
          · intro s₄
            exact writeChunks_n_frames _ _
  · intro hcap
    simp [writeFrameIndex, writeChunk, hcap, andThenW]

/-- Witness for C10: a writer whose sink is already full still counts the frame. -/
theorem claim_C10_witness :
    (writeFrameIndex { sinkCap := 0 } 1 ⟨"f", "file.py", 10, true⟩).2.n_frames = 0 + 1
  ∧ (writeFrameIndex { sinkCap := 0 } 1 ⟨"f", "file.py", 10, true⟩).1 = false
  ∧ (writeFrameIndex { sinkCap := 0 } 1 ⟨"f", "file.py", 10, true⟩).2.out = [] := by
  have h := claim_C10 { sinkCap := 0 } 1 ⟨"f", "file.py", 10, true⟩
  exact ⟨h.1, (h.2 rfl).1, (h.2 rfl).2⟩
theorem writeChunk_eq_true {st st' : WriterState} {c : Chunk}
    (h : writeChunk st c = (true, st')) :
    st' = { st with sinkCap := st.sinkCap - 1, out := st.out ++ [c] } := by
  rcases writeChunk_cases st c with ⟨_, hc⟩ | ⟨_, hc⟩
  · rw [hc] at h
    simp at h
  · rw [hc] at h
    exact ((Prod.mk.injEq _ _ _ _).mp h).2.symm

theorem writeChunks_eq_true {st st' : WriterState} {l : List Chunk}
    (h : writeChunks st l = (true, st')) :
    st' = { st with sinkCap := st.sinkCap - l.length, out := st.out ++ l } := by
  have h1 : (writeChunks st l).1 = true := by rw [h]
  have h2 := writeChunks_out l st h1
  rw [h] at h2
  exact h2

theorem writeAllocationRecord_out (st : WriterState) (tid address size : Nat) (a : Allocator)
    (htid : st.d_last.thread_id = tid)
    (hok : (writeAllocationRecord st tid address size a).1 = true) :
    (writeAllocationRecord st tid address size a).2.out
      = st.out ++ [Chunk.token RecordType.ALLOCATION a.code]
          ++ (writeIntegralDelta st.d_last.data_pointer address).1.map Chunk.byte
          ++ (if allocatorKind a = AllocatorKind.SIMPLE_DEALLOCATOR then []
              else (varintBytes size).map Chunk.byte) := by
  have hctx : maybeWriteContextSwitchRecord st tid = (true, st) := by
    simp [maybeWriteContextSwitchRecord, htid]
  simp only [writeAllocationRecord, hctx, andThenW] at hok ⊢
  split at hok
  case _ s1 heq1 =>
    have hs1 := writeChunk_eq_true heq1
    subst hs1
    split at hok
    case _ s2 heq2 =>
      have hs2 := writeChunks_eq_true heq2
      subst hs2
      by_cases hk : allocatorKind a = AllocatorKind.SIMPLE_DEALLOCATOR
      · simp only [hk, if_true]
        simp [List.append_assoc]
      · simp only [hk, if_false] at hok ⊢
        rw [writeVarintW] at hok ⊢
        rw [writeChunks_out _ _ hok]
    case _ s2 heq2 =>
      simp at hok
  case _ s1 heq1 =>
    simp at hok

theorem writeNativeAllocationRecord_out (st : WriterState)
    (tid address size native_frame_id : Nat) (a : Allocator)
    (htid : st.d_last.thread_id = tid)
    (hok : (writeNativeAllocationRecord st tid address size native_frame_id a).1 = true) :
    (writeNativeAllocationRecord st tid address size native_frame_id a).2.out
      = st.out ++ [Chunk.token RecordType.ALLOCATION_WITH_NATIVE a.code]
          ++ (writeIntegralDelta st.d_last.data_pointer address).1.map Chunk.byte
          ++ (varintBytes size).map Chunk.byte
          ++ (writeIntegralDelta st.d_last.native_frame_id native_frame_id).1.map Chunk.byte := by
  have hctx : maybeWriteContextSwitchRecord st tid = (true, st) := by
    simp [maybeWriteContextSwitchRecord, htid]
  simp only [writeNativeAllocationRecord, hctx, andThenW, writeVarintW] at hok ⊢
  split at hok
  case _ s1 heq1 =>
    have hs1 := writeChunk_eq_true heq1
    subst hs1
    split at hok
    case _ s2 heq2 =>
      have hs2 := writeChunks_eq_true heq2
      subst hs2
      split at hok
      case _ s3 heq3 =>
        have hs3 := writeChunks_eq_true heq3
        subst hs3
        rw [writeChunks_out _ _ hok]
      case _ s3 heq3 =>
        simp at hok
    case _ s2 heq2 =>
      simp at hok
  case _ s1 heq1 =>
    simp at hok

/-- C4: for every `AllocationRecord` written via `writeThreadSpecificRecord`, the
varint size field follows the delta-encoded address on the wire if and only if
the allocator kind is not a simple deallocator, and for every
`NativeAllocationRecord` the varint size field is always present. -/
theorem claim_C4 (st : WriterState) (tid address size native_frame_id : Nat) (a : Allocator)
    (htid : st.d_last.thread_id = tid) :
    ((writeAllocationRecord st tid address size a).1 = true →
      (writeAllocationRecord st tid address size a).2.out
        = st.out ++ [Chunk.token RecordType.ALLOCATION a.code]
            ++ (writeIntegralDelta st.d_last.data_pointer address).1.map Chunk.byte
            ++ (if allocatorKind a = AllocatorKind.SIMPLE_DEALLOCATOR then []
                else (varintBytes size).map Chunk.byte))
  ∧ ((writeNativeAllocationRecord st tid address size native_frame_id a).1 = true →
      (writeNativeAllocationRecord st tid address size native_frame_id a).2.out
        = st.out ++ [Chunk.token RecordType.ALLOCATION_WITH_NATIVE a.code]
            ++ (writeIntegralDelta st.d_last.data_pointer address).1.map Chunk.byte
            ++ (varintBytes size).map Chunk.byte
            ++ (writeIntegralDelta st.d_last.native_frame_id native_frame_id).1.map Chunk.byte) :=
  ⟨writeAllocationRecord_out st tid address size a htid,
   writeNativeAllocationRecord_out st tid address size native_frame_id a htid⟩

/-- Witness for C4: a malloc-style allocation carries its size varint, a free-style
(simple deallocator) record does not, and a native allocation always does. -/
theorem claim_C4_witness :
    (writeAllocationRecord { sinkCap := 10 } 0 5 3 ⟨1, AllocatorKind.OTHER⟩).2.out
      = [Chunk.token RecordType.ALLOCATION 1, Chunk.byte 10, Chunk.byte 3]
  ∧ (writeAllocationRecord { sinkCap := 10 } 0 5 3 ⟨2, AllocatorKind.SIMPLE_DEALLOCATOR⟩).2.out
      = [Chunk.token RecordType.ALLOCATION 2, Chunk.byte 10]
  ∧ (writeNativeAllocationRecord { sinkCap := 10 } 0 5 3 7 ⟨1, AllocatorKind.OTHER⟩).2.out
      = [Chunk.token RecordType.ALLOCATION_WITH_NATIVE 1, Chunk.byte 10, Chunk.byte 3,
         Chunk.byte 14] := by
  refine ⟨?_, ?_, ?_⟩
  · rw [(claim_C4 { sinkCap := 10 } 0 5 3 7 ⟨1, AllocatorKind.OTHER⟩ rfl).1
      (by simp [writeAllocationRecord, maybeWriteContextSwitchRecord, andThenW, writeChunk,
        writeChunks, writeVarintW, writeIntegralDelta, signedVarintBytes, varintBytes,
        zigzagEncode, toSigned, wrapSub, U64, allocatorKind])]
    simp [writeIntegralDelta, signedVarintBytes, varintBytes, zigzagEncode, toSigned, wrapSub,
      U64, allocatorKind]
  · rw [(claim_C4 { sinkCap := 10 } 0 5 3 7 ⟨2, AllocatorKind.SIMPLE_DEALLOCATOR⟩ rfl).1
      (by simp [writeAllocationRecord, maybeWriteContextSwitchRecord, andThenW, writeChunk,
        writeChunks, writeVarintW, writeIntegralDelta, signedVarintBytes, varintBytes,
        zigzagEncode, toSigned, wrapSub, U64, allocatorKind])]
    simp [writeIntegralDelta, signedVarintBytes, varintBytes, zigzagEncode, toSigned, wrapSub,
      U64, allocatorKind]
  · rw [(claim_C4 { sinkCap := 10 } 0 5 3 7 ⟨1, AllocatorKind.OTHER⟩ rfl).2
      (by simp [writeNativeAllocationRecord, maybeWriteContextSwitchRecord, andThenW, writeChunk,
        writeChunks, writeVarintW, writeIntegralDelta, signedVarintBytes, varintBytes,
        zigzagEncode, toSigned, wrapSub, U64, allocatorKind])]
    simp [writeIntegralDelta, signedVarintBytes, varintBytes, zigzagEncode, toSigned, wrapSub,
      U64, allocatorKind]

/-- C5: every wire value produced by `writeIntegralDelta` is the zig-zag signed
varint of `new - prev` (64-bit wrap-around) and the stored `prev` is then set to
`new`; consequently the reader can decode each delta and their sum over any
prefix of the stream equals (modulo the word size, hence exactly for in-range
values) the last raw value written for that field. -/
theorem claim_C5 (vals : List Nat) (h : ∀ v ∈ vals, v < U64) :
    (∀ prev new_val : Nat, (writeIntegralDelta prev new_val).2 = new_val)
  ∧ (∀ prev new_val : Nat,
      (writeIntegralDelta prev new_val).1 = signedVarintBytes (toSigned (wrapSub new_val prev)))
  ∧ (writeDeltaSeq 0 vals).map decodeSignedVarint
      = (deltaInts 0 vals).map (fun d => some (d, ([] : List Nat)))
  ∧ ∀ n, n < vals.length →
      (((deltaInts 0 vals).take (n + 1)).sum) % ((U64 : Nat) : Int)
        = ((vals.getD n 0 : Nat) : Int) := by
  refine ⟨fun _ _ => rfl, fun _ _ => rfl,
    deltaInts_decode vals 0 (by simp [U64]) h, ?_⟩
  intro n hn
  have hsum := deltaInts_prefix_sum vals 0 (by simp [U64]) h n hn
  simpa using hsum

/-- Witness for C5 on the value sequence 5, 3: the two deltas decode to 5 and -2
and their sum is the last raw value 3. -/
theorem claim_C5_witness :
    ((writeDeltaSeq 0 [5, 3]).map decodeSignedVarint
        = (deltaInts 0 [5, 3]).map (fun d => some (d, ([] : List Nat))))
  ∧ (((deltaInts 0 [5, 3]).take 2).sum) % ((U64 : Nat) : Int) = ((3 : Nat) : Int) := by
  have h := claim_C5 [5, 3] (by decide)
  refine ⟨h.2.2.1, ?_⟩
  have h4 := h.2.2.2 1 (by simp)
  simpa using h4

-- Stack shadow: direct operation specifications

/-- C6: `setMostRecentFrameLineNumber(new_lineno)` leaves the state unchanged when
the stack is empty or the top frame already records that line number; otherwise it
updates the top frame's line number, and when the top frame had been emitted it
additionally bumps `num_pending_pops` by exactly one and clears the emitted flag,
so that the next flush (pops then pushes) emits exactly one pop token and one
re-push of that frame. -/
theorem claim_C6 (s : TrackerState) (lineno : Int) (top : LazyFrame) (rest : List LazyFrame) :
    (s.stack = [] → setMostRecentFrameLineNumber s lineno = s)
  ∧ (s.stack = top :: rest → top.raw_frame_record.lineno = lineno →
      setMostRecentFrameLineNumber s lineno = s)
  ∧ (s.stack = top :: rest → top.raw_frame_record.lineno ≠ lineno → top.emitted = false →
      setMostRecentFrameLineNumber s lineno
        = { s with stack :=
            { top with raw_frame_record :=
                { top.raw_frame_record with lineno := lineno } } :: rest })
  ∧ (s.stack = top :: rest → top.raw_frame_record.lineno ≠ lineno → top.emitted = true →
      setMostRecentFrameLineNumber s lineno
        = { s with
            stack := { top with
                raw_frame_record := { top.raw_frame_record with lineno := lineno },
                emitted := false } :: rest,
            num_pending_pops := s.num_pending_pops + 1 })
  ∧ (s.stack = top :: rest → top.raw_frame_record.lineno ≠ lineno → top.emitted = true →
      s.num_pending_pops = 0 → rest.takeWhile notEmitted = [] →
      (emitPendingPushes (emitPendingPops (setMostRecentFrameLineNumber s lineno))).out
        = s.out ++ [OutRecord.pop 0,
            OutRecord.push { top.raw_frame_record with lineno := lineno }]) := by
  refine ⟨?_, ?_, ?_, ?_, ?_⟩
  · intro h
    simp [setMostRecentFrameLineNumber, h]
  · intro h hl
    simp [setMostRecentFrameLineNumber, h, hl]
  · intro h hl he
    simp [setMostRecentFrameLineNumber, h, hl, he]
  · intro h hl he
    simp [setMostRecentFrameLineNumber, h, hl, he]
  · intro h hl he hp hr
    simp only [setMostRecentFrameLineNumber, h, hl, he, if_true, if_false]
    simp only [emitPendingPops, emitPendingPushes, hp]
    simp [framePopRecs, framePopFlags, List.takeWhile_cons, notEmitted, he, hr]

/-- Witness for C6: a single emitted frame at line 10 moved to line 11 yields one
pending pop, the not-emitted flag, and a flush of exactly one pop and one re-push. -/
theorem claim_C6_witness :
    setMostRecentFrameLineNumber ⟨[⟨1, ⟨"f", "a.py", 10, true⟩, true⟩], 0, []⟩ 11
      = ⟨[⟨1, ⟨"f", "a.py", 11, true⟩, false⟩], 1, []⟩
  ∧ (emitPendingPushes (emitPendingPops (setMostRecentFrameLineNumber
        ⟨[⟨1, ⟨"f", "a.py", 10, true⟩, true⟩], 0, []⟩ 11))).out
      = [OutRecord.pop 0, OutRecord.push ⟨"f", "a.py", 11, true⟩] := by
  have h := claim_C6 ⟨[⟨1, ⟨"f", "a.py", 10, true⟩, true⟩], 0, []⟩ 11
      ⟨1, ⟨"f", "a.py", 10, true⟩, true⟩ []
  constructor
  · rw [h.2.2.2.1 rfl (by decide) rfl]
  · rw [h.2.2.2.2 rfl (by decide) rfl rfl rfl]
    rfl

/-- C7: `popPythonFrame(frame)` is a no-op when the stack is empty or the top
frame's identity differs from the argument; otherwise the top frame is dropped,
`num_pending_pops` grows by one exactly when the dropped frame was emitted, and
when the stack becomes empty the pending pops are flushed immediately, zeroing
the counter after emitting the `FramePop`. -/
theorem claim_C7 (s : TrackerState) (frame : Nat) (top : LazyFrame) (rest : List LazyFrame) :
    (s.stack = [] → popPythonFrame s frame = s)
  ∧ (s.stack = top :: rest → frame ≠ top.frame → popPythonFrame s frame = s)
  ∧ (s.stack = top :: rest → frame = top.frame → rest ≠ [] →
      popPythonFrame s frame
        = { s with
            stack := rest,
            num_pending_pops := s.num_pending_pops + (if top.emitted then 1 else 0) })
  ∧ (s.stack = top :: rest → frame = top.frame → rest = [] →
      popPythonFrame s frame
        = { s with
            stack := [],
            num_pending_pops := 0,
            out := s.out ++ framePopRecs (s.num_pending_pops + (if top.emitted then 1 else 0)) }) := by
  refine ⟨?_, ?_, ?_, ?_⟩
  · intro h
    simp [popPythonFrame, h]
  · intro h hf
    simp [popPythonFrame, h, hf]
  · intro h hf hr
    simp [popPythonFrame, h, hf, List.isEmpty_iff, hr]
  · intro h hf hr
    subst hr
    simp [popPythonFrame, h, hf, List.isEmpty_iff, emitPendingPops]

/-- Witness for C7: a pop whose frame identity does not match the top is ignored,
a matching pop of the last emitted frame flushes one pop token immediately. -/
theorem claim_C7_witness :
    popPythonFrame ⟨[⟨1, ⟨"f", "a.py", 10, true⟩, true⟩], 0, []⟩ 2
      = ⟨[⟨1, ⟨"f", "a.py", 10, true⟩, true⟩], 0, []⟩
  ∧ popPythonFrame ⟨[⟨1, ⟨"f", "a.py", 10, true⟩, true⟩], 0, []⟩ 1
      = ⟨[], 0, [OutRecord.pop 0]⟩ := by
  have h := claim_C7 ⟨[⟨1, ⟨"f", "a.py", 10, true⟩, true⟩], 0, []⟩ 2
      ⟨1, ⟨"f", "a.py", 10, true⟩, true⟩ []
  have h' := claim_C7 ⟨[⟨1, ⟨"f", "a.py", 10, true⟩, true⟩], 0, []⟩ 1
      ⟨1, ⟨"f", "a.py", 10, true⟩, true⟩ []
  constructor
  · exact h.2.1 rfl (by decide)
  · rw [h'.2.2.2 rfl rfl rfl]
    simp [framePopRecs, framePopFlags]

/-- C8: `pushPythonFrame` is atomic on interpreter-reflection failure: if fetching
the function name or the file name fails, it returns an error and the shadow state
is completely unchanged (no partial frame appended, no record written). -/
theorem claim_C8 (s : TrackerState) (frame : Nat) (function filename : Option String)
    (parent_lineno : Int) (is_entry_frame : Bool) :
    (function = none →
      pushPythonFrame s frame function filename parent_lineno is_entry_frame = (-1, s))
  ∧ (filename = none →
      pushPythonFrame s frame function filename parent_lineno is_entry_frame = (-1, s)) := by
  constructor
  · intro h
    subst h
    rfl
  · intro h
    subst h
    cases function <;> rfl

/-- Witness for C8: a failed function-name lookup and a failed filename lookup
both leave the tracker state untouched. -/
theorem claim_C8_witness :
    pushPythonFrame ⟨[], 0, []⟩ 1 none (some "a.py") 10 true = (-1, ⟨[], 0, []⟩)
  ∧ pushPythonFrame ⟨[], 0, []⟩ 1 (some "f") none 10 true = (-1, ⟨[], 0, []⟩) := by
  have h1 := claim_C8 ⟨[], 0, []⟩ 1 none (some "a.py") 10 true
  have h2 := claim_C8 ⟨[], 0, []⟩ 1 (some "f") none 10 true
  exact ⟨h1.1 rfl, h2.2 rfl⟩

-- Replay and contiguity helper lemmas

theorem replay_append (a b : List OutRecord) :
    replay (a ++ b) = b.foldl replayRec (replay a) := by
  simp [replay, List.foldl_append]

theorem framePopRecs_foldl (count : Nat) :
    ∀ st : List RawFrame, (framePopRecs count).foldl replayRec st = st.drop count := by
  induction count using Nat.strong_induction_on with
  | _ count ih =>
    intro st
    rw [framePopRecs, framePopFlags]
    by_cases h0 : count = 0
    · simp [h0]
    · simp only [h0, if_false]
      by_cases h16 : count > 16
      · simp only [h16, if_true, List.map_cons, List.foldl_cons]
        have hrec := ih (count - 16) (by omega) (st.drop 16)
        rw [framePopRecs] at hrec
        have hstep : replayRec st (OutRecord.pop 15) = st.drop 16 := rfl
        rw [hstep, hrec, List.drop_drop]
        congr 1
        omega
      · simp only [h16, if_false, List.map_cons, List.map_nil, List.foldl_cons, List.foldl_nil]
        have hstep : replayRec st (OutRecord.pop (count - 1)) = st.drop (count - 1 + 1) := rfl
        rw [hstep]
        congr 1
        omega

theorem push_foldl (rs : List RawFrame) :
    ∀ st : List RawFrame,
      (rs.map OutRecord.push).foldl replayRec st = rs.reverse ++ st := by
  induction rs with
  | nil => intro st; simp
  | cons r t ih =>
    intro st
    simp only [List.map_cons, List.foldl_cons, List.reverse_cons]
    have hstep : replayRec st (OutRecord.push r) = r :: st := rfl
    rw [hstep, ih (r :: st)]
    simp

theorem emittedPart_cons_true (f : LazyFrame) (l : List LazyFrame) (h : f.emitted = true) :
    emittedPart (f :: l) = f :: l := by
  simp [emittedPart, List.dropWhile_cons, notEmitted, h]

theorem emittedPart_cons_false (f : LazyFrame) (l : List LazyFrame) (h : f.emitted = false) :
    emittedPart (f :: l) = emittedPart l := by
  simp [emittedPart, List.dropWhile_cons, notEmitted, h]

theorem emittedPart_all (l : List LazyFrame) (h : l.all (fun f => f.emitted) = true) :
    emittedPart l = l := by
  cases l with
  | nil => rfl
  | cons f t =>
    have hf : f.emitted = true := by
      simp [List.all_cons] at h
      exact h.1
    exact emittedPart_cons_true f t hf

theorem Contig_of_all (l : List LazyFrame) (h : l.all (fun f => f.emitted) = true) :
    Contig l = true := by
  unfold Contig
  rw [emittedPart_all l h]
  exact h

theorem Contig_cons_true (f : LazyFrame) (l : List LazyFrame)
    (h : Contig (f :: l) = true) (hf : f.emitted = true) :
    (f :: l).all (fun f => f.emitted) = true := by
  unfold Contig at h
  rwa [emittedPart_cons_true f l hf] at h

theorem Contig_cons_false (f : LazyFrame) (l : List LazyFrame) (hf : f.emitted = false) :
    Contig (f :: l) = Contig l := by
  unfold Contig
  rw [emittedPart_cons_false f l hf]

theorem Contig_nil : Contig [] = true := rfl

theorem ShadowInv_set (s : TrackerState) (n : Int) (h : ShadowInv s) :
    ShadowInv (setMostRecentFrameLineNumber s n) := by
  obtain ⟨hc, junk, hlen, hrep⟩ := h
  cases hst : s.stack with
  | nil =>
    simp only [setMostRecentFrameLineNumber, hst]
    exact ⟨hc, junk, hlen, hrep⟩
  | cons top rest =>
    by_cases hl : top.raw_frame_record.lineno = n
    · simp only [setMostRecentFrameLineNumber, hst, hl, if_true]
      exact ⟨hc, junk, hlen, hrep⟩
    · rw [hst] at hc hrep
      by_cases he : top.emitted = true
      · have hall := Contig_cons_true top rest hc he
        have hrest : rest.all (fun f => f.emitted) = true := by
          simp only [List.all_cons, Bool.and_eq_true] at hall
          exact hall.2
        simp only [setMostRecentFrameLineNumber, hst, hl, if_false, he, if_true]
        refine ⟨?_, junk ++ [top.raw_frame_record], by simp [hlen], ?_⟩
        · rw [Contig_cons_false _ rest rfl]
          exact Contig_of_all rest hrest
        · rw [hrep, emittedPart_cons_true top rest he,
            emittedPart_cons_false _ rest rfl, emittedPart_all rest hrest]
          simp [List.append_assoc]
      · have he' : top.emitted = false := by
          simpa using he
        simp only [setMostRecentFrameLineNumber, hst, hl, if_false, he', Bool.false_eq_true,
          if_false]
        refine ⟨?_, junk, hlen, ?_⟩
        · rw [Contig_cons_false _ rest rfl]
          rwa [Contig_cons_false top rest he'] at hc
        · rw [hrep, emittedPart_cons_false top rest he', emittedPart_cons_false _ rest rfl]

theorem ShadowInv_pops (s : TrackerState) (h : ShadowInv s) :
    ShadowInv (emitPendingPops s) ∧
    replay (emitPendingPops s).out
      = (emittedPart s.stack).map (fun f => f.raw_frame_record) := by
  obtain ⟨hc, junk, hlen, hrep⟩ := h
  have hr : replay (s.out ++ framePopRecs s.num_pending_pops)
      = (replay s.out).drop s.num_pending_pops := by
    rw [replay_append, framePopRecs_foldl]
  have hr2 : (replay s.out).drop s.num_pending_pops
      = (emittedPart s.stack).map (fun f => f.raw_frame_record) := by
    rw [hrep, List.drop_left' hlen]
  constructor
  · exact ⟨hc, [], rfl, by simp only [emitPendingPops]; rw [hr, hr2]; simp⟩
  · simp only [emitPendingPops]
    rw [hr, hr2]

theorem pushes_sync (s : TrackerState) (hc : Contig s.stack = true)
    (hp : s.num_pending_pops = 0)
    (hrep : replay s.out = (emittedPart s.stack).map (fun f => f.raw_frame_record)) :
    ShadowInv (emitPendingPushes s) ∧
    replay (emitPendingPushes s).out
      = (emitPendingPushes s).stack.map (fun f => f.raw_frame_record) := by
  have hmain : replay (emitPendingPushes s).out
      = (emitPendingPushes s).stack.map (fun f => f.raw_frame_record) := by
    simp only [emitPendingPushes]
    rw [replay_append]
    have hm : (s.stack.takeWhile notEmitted).reverse.map
          (fun f => OutRecord.push f.raw_frame_record)
        = ((s.stack.takeWhile notEmitted).reverse.map
            (fun f => f.raw_frame_record)).map OutRecord.push := by
      rw [List.map_map]
      rfl
    rw [hm, push_foldl, hrep]
    simp only [List.map_reverse, List.reverse_reverse, List.map_append, List.map_map]
    rfl
  have hall : ((emitPendingPushes s).stack).all (fun f => f.emitted) = true := by
    simp only [emitPendingPushes]
    rw [List.all_append, Bool.and_eq_true]
    refine ⟨?_, ?_⟩
    · simp [List.all_map, markEmitted, Function.comp]
    · unfold Contig emittedPart at hc
      exact hc
  refine ⟨⟨Contig_of_all _ hall, [], ?_, ?_⟩, hmain⟩
  · simp [emitPendingPushes, hp]
  · rw [hmain, emittedPart_all _ hall]
    simp

theorem ShadowInv_pop (s : TrackerState) (frame : Nat) (h : ShadowInv s) :
    ShadowInv (popPythonFrame s frame) := by
  obtain ⟨hc, junk, hlen, hrep⟩ := h
  cases hst : s.stack with
  | nil =>
    simp only [popPythonFrame, hst]
    exact ⟨hc, junk, hlen, hrep⟩
  | cons top rest =>
    by_cases hf : frame ≠ top.frame
    · simp only [popPythonFrame, hst]
      rw [if_pos hf]
      exact ⟨hc, junk, hlen, hrep⟩
    · rw [hst] at hc hrep
      simp only [popPythonFrame, hst]
      rw [if_neg hf]
      have hinv : ShadowInv { s with
          num_pending_pops := s.num_pending_pops + (if top.emitted then 1 else 0),
          stack := rest } := by
        by_cases he : top.emitted = true
        · have hall := Contig_cons_true top rest hc he
          have hrest : rest.all (fun f => f.emitted) = true := by
            simp only [List.all_cons, Bool.and_eq_true] at hall
            exact hall.2
          refine ⟨Contig_of_all rest hrest, junk ++ [top.raw_frame_record], ?_, ?_⟩
          · simp [hlen, he]
          · show replay s.out = _ ++ (emittedPart rest).map _
            rw [hrep, emittedPart_cons_true top rest he, emittedPart_all rest hrest]
            simp [List.append_assoc]
        · have he' : top.emitted = false := by simpa using he
          refine ⟨?_, junk, ?_, ?_⟩
          · show Contig rest = true
            rwa [Contig_cons_false top rest he'] at hc
          · simp [hlen, he']
          · show replay s.out = _ ++ (emittedPart rest).map _
            rw [hrep, emittedPart_cons_false top rest he']
      by_cases hre : rest = []
      · subst hre
        rw [if_pos (by simp)]
        exact (ShadowInv_pops _ hinv).1
      · rw [if_neg (by simpa [List.isEmpty_iff] using hre)]
        exact hinv

theorem ShadowInv_push (s : TrackerState) (frame : Nat) (fn file : String)
    (parent_lineno : Int) (is_entry : Bool) (h : ShadowInv s) :
    ShadowInv (pushPythonFrame s frame (some fn) (some file) parent_lineno is_entry).2 := by
  obtain ⟨hc, junk, hlen, hrep⟩ := ShadowInv_set s parent_lineno h
  simp only [pushPythonFrame, pushLazilyEmittedFrame]
  refine ⟨?_, junk, hlen, ?_⟩
  · show Contig (_ :: (setMostRecentFrameLineNumber s parent_lineno).stack) = true
    rw [Contig_cons_false _ _ rfl]
    exact hc
  · show replay (setMostRecentFrameLineNumber s parent_lineno).out
      = junk ++ (emittedPart (_ :: (setMostRecentFrameLineNumber s parent_lineno).stack)).map _
    rw [emittedPart_cons_false _ _ rfl]
    exact hrep

theorem alloc_sync (s : TrackerState) (n : Int) (h : ShadowInv s) :
    ShadowInv (trackAllocation s n) ∧
    replay (trackAllocation s n).out
      = (trackAllocation s n).stack.map (fun f => f.raw_frame_record) := by
  have h1 := ShadowInv_set s n h
  have h2 := ShadowInv_pops _ h1
  exact pushes_sync _ h2.1.1 rfl h2.2

theorem ShadowInv_step (s : TrackerState) (e : Event) (h : ShadowInv s) :
    ShadowInv (step s e) := by
  cases e with
  | push fr fn file pl entry => exact ShadowInv_push s fr fn file pl entry h
  | pop fr => exact ShadowInv_pop s fr h
  | lineChange n => exact ShadowInv_set s n h
  | alloc n => exact (alloc_sync s n h).1

theorem ShadowInv_initial : ShadowInv initialState :=
  ⟨rfl, [], rfl, rfl⟩

theorem ShadowInv_run (es : List Event) :
    ∀ s : TrackerState, ShadowInv s → ShadowInv (es.foldl step s) := by
  induction es with
  | nil => intro s h; exact h
  | cons e t ih =>
    intro s h
    exact ih (step s e) (ShadowInv_step s e h)

/-- C1: for every sequence of push/pop/set_lineno events on a single thread with
tracking active throughout, after the tracker flushes pending pops and then
pending pushes in front of an allocation record, a reader that replays the
emitted FRAME_PUSH and FRAME_POP records reconstructs exactly the shadow's
logical stack at that allocation record. -/
theorem claim_C1 (es : List Event) (lineno : Int) :
    replay (runEvents (es ++ [Event.alloc lineno])).out
      = (runEvents (es ++ [Event.alloc lineno])).stack.map (fun f => f.raw_frame_record) := by
  have hrun : runEvents (es ++ [Event.alloc lineno])
      = step (es.foldl step initialState) (Event.alloc lineno) := by
    simp [runEvents, List.foldl_append]
  rw [hrun]
  exact (alloc_sync _ lineno (ShadowInv_run es initialState ShadowInv_initial)).2

theorem Contig_pushes (s : TrackerState) (hc : Contig s.stack = true) :
    Contig (emitPendingPushes s).stack = true := by
  apply Contig_of_all
  simp only [emitPendingPushes]
  rw [List.all_append, Bool.and_eq_true]
  refine ⟨by simp [List.all_map, markEmitted, Function.comp], ?_⟩
  unfold Contig emittedPart at hc
  exact hc

theorem Contig_set (s : TrackerState) (n : Int) (hc : Contig s.stack = true) :
    Contig (setMostRecentFrameLineNumber s n).stack = true := by
  cases hst : s.stack with
  | nil =>
    simp only [setMostRecentFrameLineNumber, hst]
    rwa [hst] at hc
  | cons top rest =>
    rw [hst] at hc
    by_cases hl : top.raw_frame_record.lineno = n
    · simp only [setMostRecentFrameLineNumber, hst, hl, if_true]
      exact hc
    · by_cases he : top.emitted = true
      · have hall := Contig_cons_true top rest hc he
        have hrest : rest.all (fun f => f.emitted) = true := by
          simp only [List.all_cons, Bool.and_eq_true] at hall
          exact hall.2
        simp only [setMostRecentFrameLineNumber, hst, hl, if_false, he, if_true]
        show Contig (_ :: rest) = true
        rw [Contig_cons_false _ rest rfl]
        exact Contig_of_all rest hrest
      · have he' : top.emitted = false := by simpa using he
        simp only [setMostRecentFrameLineNumber, hst, hl, if_false, he', Bool.false_eq_true,
          if_false]
        show Contig (_ :: rest) = true
        rw [Contig_cons_false _ rest rfl]
        rwa [Contig_cons_false top rest he'] at hc

theorem Contig_pop (s : TrackerState) (frame : Nat) (hc : Contig s.stack = true) :
    Contig (popPythonFrame s frame).stack = true := by
  cases hst : s.stack with
  | nil =>
    simp only [popPythonFrame, hst]
    rwa [hst] at hc
  | cons top rest =>
    rw [hst] at hc
    by_cases hf : frame ≠ top.frame
    · simp only [popPythonFrame, hst]
      rw [if_pos hf]
      rwa [hst]
    · simp only [popPythonFrame, hst]
      rw [if_neg hf]
      have hrest : Contig rest = true := by
        by_cases he : top.emitted = true
        · have hall := Contig_cons_true top rest hc he
          have h2 : rest.all (fun f => f.emitted) = true := by
            simp only [List.all_cons, Bool.and_eq_true] at hall
            exact hall.2
          exact Contig_of_all rest h2
        · have he' : top.emitted = false := by simpa using he
          rwa [Contig_cons_false top rest he'] at hc
      by_cases hre : rest = []
      · subst hre
        rw [if_pos (by simp)]
        exact hrest
      · rw [if_neg (by simpa [List.isEmpty_iff] using hre)]
        exact hrest

theorem Contig_step (s : TrackerState) (e : Event) (hc : Contig s.stack = true) :
    Contig (step s e).stack = true := by
  cases e with
  | push fr fn file pl entry =>
    simp only [step, pushPythonFrame, pushLazilyEmittedFrame]
    show Contig (_ :: (setMostRecentFrameLineNumber s pl).stack) = true
    rw [Contig_cons_false _ _ rfl]
    exact Contig_set s pl hc
  | pop fr => exact Contig_pop s fr hc
  | lineChange n => exact Contig_set s n hc
  | alloc n => exact Contig_pushes _ (Contig_set s n hc)

/-- C9: every stack-shadow operation preserves the invariant that the emitted
frames form a contiguous segment at the bottom of the stack, a reloaded stack
trivially satisfies it (all frames unemitted), and `emitPendingPushes` emits
push records exactly for the frames above the most recent emitted one, all of
which have `emitted = false` — no frame whose `emitted` flag is already true is
ever pushed again. -/
theorem claim_C9 :
    (∀ (s : TrackerState) (e : Event), Contig s.stack = true → Contig (step s e).stack = true)
  ∧ (∀ (s : TrackerState), Contig s.stack = true → Contig (emitPendingPushes s).stack = true)
  ∧ (∀ (s : TrackerState) (captured : List (Nat × RawFrame)),
      Contig (reloadStack s captured).stack = true)
  ∧ (∀ s : TrackerState,
      (emitPendingPushes s).out
        = s.out ++ ((s.stack.takeWhile notEmitted).reverse.map
            (fun f => OutRecord.push f.raw_frame_record))
      ∧ ∀ f ∈ s.stack.takeWhile notEmitted, f.emitted = false) := by
  refine ⟨Contig_step, Contig_pushes, ?_, ?_⟩
  · intro s captured
    have hnone : ∀ l : List (Nat × RawFrame),
        emittedPart (l.map (fun p => (⟨p.1, p.2, false⟩ : LazyFrame))) = [] := by
      intro l
      induction l with
      | nil => rfl
      | cons p t ih =>
        rw [List.map_cons, emittedPart_cons_false _ _ rfl, ih]
    unfold Contig
    simp only [reloadStack]
    rw [hnone captured]
    rfl
  · intro s
    refine ⟨rfl, ?_⟩
    intro f hf
    have := List.mem_takeWhile_imp hf
    simpa [notEmitted] using this

/-- Witness for C9: a pop step on a contiguously-emitted two-frame stack keeps the
invariant, and flushing pushes on a stack with an unemitted top pushes only that
unemitted frame. -/
theorem claim_C9_witness :
    Contig (step ⟨[⟨2, ⟨"g", "a.py", 20, true⟩, false⟩, ⟨1, ⟨"f", "a.py", 10, true⟩, true⟩], 0,
        []⟩ (Event.pop 2)).stack = true
  ∧ (emitPendingPushes ⟨[⟨2, ⟨"g", "a.py", 20, true⟩, false⟩,
        ⟨1, ⟨"f", "a.py", 10, true⟩, true⟩], 0, []⟩).out
      = [OutRecord.push ⟨"g", "a.py", 20, true⟩] := by
  constructor
  · exact claim_C9.1 _ (Event.pop 2) (by decide)
  · rw [(claim_C9.2.2.2 ⟨[⟨2, ⟨"g", "a.py", 20, true⟩, false⟩,
        ⟨1, ⟨"f", "a.py", 10, true⟩, true⟩], 0, []⟩).1]
    rfl
